import Mathlib

/-!
Verification development for the qclient repository: a shallow embedding of
the shared-hash replication engine (src/shared/SharedHash.cc), the connection
manager and reply-feeding logic (src/QClient.cc), and the multi-builder
commands emitted by the shared hash, together with theorems settling the
frozen specification claims.
-/

/-- Size of the uint64_t value space; version numbers and revisions in
SharedHash.cc are uint64_t, so additions wrap modulo this constant. -/
def U64SIZE : Nat := 18446744073709551616

/-- A string-to-string map represented as an association list, modelling the
std::map of SharedHash::contents. Insertion overwrites an existing binding;
lookups see at most one binding per key because insert and erase preserve
per-key uniqueness of the bindings that lookup can reach. -/
def Smap : Type := List (String × String)

instance : DecidableEq Smap := by
  unfold Smap
  infer_instance

/-- Lookup of a field in the map, mirroring std::map::find in
SharedHash::get. -/
def Smap.lookup (f : String) : Smap → Option String
  | [] => none
  | (k, v) :: rest => if k = f then some v else Smap.lookup f rest

/-- Erase a field, mirroring contents.erase in SharedHash::feedSingleKeyValue. -/
def Smap.erase (f : String) : Smap → Smap
  | [] => []
  | (k, v) :: rest => if k = f then Smap.erase f rest else (k, v) :: Smap.erase f rest

/-- Insert or overwrite a field, mirroring the assignment contents[key] = value
in SharedHash::feedSingleKeyValue and in the VHGETALL decoding loop. -/
def Smap.insert (f v : String) : Smap → Smap
  | [] => [(f, v)]
  | (k, w) :: rest => if k = f then (f, v) :: rest else (k, w) :: Smap.insert f v rest

/-- The replicated-hash local state: current version and contents, embedding
the fields SharedHash::currentVersion (uint64_t) and SharedHash::contents. -/
structure HState where
  currentVersion : Nat
  contents : Smap
deriving DecidableEq

/-- SharedHash::feedSingleKeyValue: an empty value deletes the field,
otherwise the field is set to the value. -/
def feedSingleKeyValue (key value : String) (contents : Smap) : Smap :=
  if value = "" then
    Smap.erase key contents
  else
    Smap.insert key value contents

/-- The update loop inside SharedHash::feedRevision: apply each pair in order. -/
def applyUpdates (updates : List (String × String)) (contents : Smap) : Smap :=
  updates.foldl (fun c kv => feedSingleKeyValue kv.1 kv.2 c) contents

/-- SharedHash::feedRevision. Returns the pair (return value, new state).
The comparison revision >= currentVersion + 2 is computed on uint64_t values,
so the sum wraps modulo 2 to the 64. -/
def feedRevision (revision : Nat) (updates : List (String × String)) (s : HState) :
    Bool × HState :=
  if revision ≤ s.currentVersion then
    (false, s)
  else if (s.currentVersion + 2) % U64SIZE ≤ revision then
    (false, s)
  else
    (true, { currentVersion := revision, contents := applyUpdates updates s.contents })

/-- SharedHash::resilver: replaces the contents wholesale and sets the version
to the given revision, unconditionally. -/
def resilverApply (revision : Nat) (newContents : Smap) (_s : HState) : HState :=
  { currentVersion := revision, contents := newContents }

/-- The operations that modify the shared-hash state: an incremental feed
(SharedHash::feedRevision) or a resilver application (SharedHash::resilver). -/
inductive HashOp where
  | feedOp (rev : Nat) (updates : List (String × String))
  | resilverOp (rev : Nat) (m : Smap)

/-- One state transition of the shared hash. -/
def hashStep (s : HState) : HashOp → HState
  | HashOp.feedOp rev u => (feedRevision rev u s).2
  | HashOp.resilverOp rev m => resilverApply rev m s

/-- Run a sequence of shared-hash operations from a starting state. -/
def hashRun (s : HState) (ops : List HashOp) : HState :=
  ops.foldl hashStep s

/-- A hiredis reply tree: the five RESP reply kinds handled by the client.
The bstring constructor is REDIS_REPLY_STRING, status is REDIS_REPLY_STATUS,
nilReply is REDIS_REPLY_NIL. A null redisReplyPtr is modelled separately as
the none case of Option RReply. -/
inductive RReply where
  | integer (i : Int)
  | bstring (s : String)
  | status (s : String)
  | error (s : String)
  | array (elems : List RReply)
  | nilReply

/-- Conversion of the hiredis long long integer field to uint64_t, as in
the assignment uint64_t revision = reply.element[0].integer in
SharedHash::handleResponse. -/
def u64OfInt (i : Int) : Nat :=
  (i % (U64SIZE : Int)).toNat

/-- The pair-decoding loop of SharedHash::handleResponse: walk the content
array two elements at a time; both members of each pair must be
REDIS_REPLY_STRING, and each pair is stored with contents[key] = value.
Returns none exactly when the source calls parseError from inside the loop. -/
def parsePairs : List RReply → Smap → Option Smap
  | [], acc => some acc
  | RReply.bstring k :: RReply.bstring v :: rest, acc =>
      parsePairs rest (Smap.insert k v acc)
  | _, _ => none

/-- SharedHash::handleResponse. Returns the new state together with a flag
that is true exactly when the source takes a parseError path (warning logged,
state untouched). The checks follow the source order: null reply, top-level
type and arity, integer first element, content array type and even arity,
then the string pair loop; on success SharedHash::resilver is applied. -/
def handleResponse (reply : Option RReply) (s : HState) : HState × Bool :=
  match reply with
  | none => (s, true)
  | some (RReply.array [first, second]) =>
    match first with
    | RReply.integer i =>
      match second with
      | RReply.array elems =>
        if elems.length % 2 = 0 then
          match parsePairs elems [] with
          | some m => (resilverApply (u64OfInt i) m s, false)
          | none => (s, true)
        else (s, true)
      | _ => (s, true)
    | _ => (s, true)
  | some _ => (s, true)

/-- Whether a reply is a REDIS_REPLY_STRING. -/
def isBString : RReply → Bool
  | RReply.bstring _ => true
  | _ => false

/-- The well-formedness condition named by claim C6: a two-element array
whose first element is an integer and whose second element is an array of an
even number of strings. -/
def goodResilverReply : Option RReply → Bool
  | some (RReply.array [RReply.integer _, RReply.array elems]) =>
      decide (elems.length % 2 = 0) && elems.all isBString
  | _ => false

/-- Field-value pairs read off an even list of string replies. -/
def toPairs : List RReply → List (String × String)
  | RReply.bstring k :: RReply.bstring v :: rest => (k, v) :: toPairs rest
  | _ => []

/-- The revision carried by a well-formed resilver reply, as a uint64_t. -/
def claimRevision : Option RReply → Nat
  | some (RReply.array (RReply.integer i :: _)) => u64OfInt i
  | _ => 0

/-- The decoded field-value map of a well-formed resilver reply. -/
def claimContents : Option RReply → Smap
  | some (RReply.array [_, RReply.array elems]) =>
      (toPairs elems).foldl (fun m kv => Smap.insert kv.1 kv.2 m) []
  | _ => []

/-- The client-side resilver bookkeeping of one SharedHash: the awaited
future (SharedHash::futureReply holds the id of the VHGETALL request whose
reply it awaits, or none once consumed), the next fresh request id, the ids
of VHGETALL requests issued but not yet answered by the server, and the
replies that have arrived but have not been consumed by checkFuture. -/
structure ResilverM where
  slot : Option Nat
  nextId : Nat
  outstanding : List Nat
  arrived : List (Nat × Option RReply)
  hstate : HState

/-- Lookup of an arrived reply by request id. -/
def lookupArr (id : Nat) : List (Nat × Option RReply) → Option (Option RReply)
  | [] => none
  | (k, v) :: rest => if k = id then some v else lookupArr id rest

/-- Remove an arrived reply by request id. -/
def removeArr (id : Nat) : List (Nat × Option RReply) → List (Nat × Option RReply)
  | [] => []
  | (k, v) :: rest => if k = id then removeArr id rest else (k, v) :: removeArr id rest

/-- SharedHash::triggerResilvering: unconditionally issue a fresh VHGETALL
request and overwrite futureReply with its future. The previously awaited
request, if any, stays outstanding on the wire but is no longer awaited. -/
def triggerResilvering (m : ResilverM) : ResilverM :=
  { m with slot := some m.nextId,
           nextId := m.nextId + 1,
           outstanding := m.outstanding ++ [m.nextId] }

/-- SharedHash::checkFuture: if the awaited future is valid and its reply is
ready, consume it with handleResponse; otherwise do nothing. -/
def checkFuture (m : ResilverM) : ResilverM :=
  match m.slot with
  | none => m
  | some id =>
    match lookupArr id m.arrived with
    | some rep =>
      { m with slot := none,
               arrived := removeArr id m.arrived,
               hstate := (handleResponse rep m.hstate).1 }
    | none => m

/-- The server answers outstanding request id with the given reply; the
request leaves the in-flight set and its reply becomes ready. -/
def arriveStep (id : Nat) (rep : Option RReply) (m : ResilverM) : ResilverM :=
  if id ∈ m.outstanding then
    { m with outstanding := m.outstanding.filter (fun x => x != id),
             arrived := (id, rep) :: m.arrived }
  else m

/-- The events claim C8 ranges over: construction (the constructor calls
triggerResilvering), connection-established notifications
(SharedHash::notifyConnectionEstablished calls triggerResilvering then
checkFuture), reads (SharedHash::get and getCurrentVersion call checkFuture),
incoming pub/sub updates (SharedHash::processIncoming calls checkFuture),
and arrival of a server reply to an outstanding resilver request. -/
inductive ResilverOp where
  | construct
  | notifyEstablished
  | readOp
  | incoming
  | arrive (id : Nat) (reply : Option RReply)

/-- One step of the resilver bookkeeping machine, following the calls made
by each entry point of SharedHash.cc. -/
def resilverStep (m : ResilverM) : ResilverOp → ResilverM
  | ResilverOp.construct => triggerResilvering m
  | ResilverOp.notifyEstablished => checkFuture (triggerResilvering m)
  | ResilverOp.readOp => checkFuture m
  | ResilverOp.incoming => checkFuture m
  | ResilverOp.arrive id rep => arriveStep id rep m

/-- The state before construction: nothing issued, nothing awaited. -/
def initResilverM : ResilverM :=
  { slot := none, nextId := 0, outstanding := [], arrived := [],
    hstate := { currentVersion := 0, contents := [] } }

/-- Run a sequence of resilver events from the pre-construction state. -/
def resilverRun (ops : List ResilverOp) : ResilverM :=
  ops.foldl resilverStep initResilverM

/-- Whether an event triggers a new resilver request. -/
def isTrigger : ResilverOp → Bool
  | ResilverOp.construct => true
  | ResilverOp.notifyEstablished => true
  | _ => false

/-- Number of trigger events in a run. -/
def triggerCount (ops : List ResilverOp) : Nat :=
  (ops.filter isTrigger).length

/-- A host-port pair, embedding qclient::Endpoint. -/
abbrev Endpoint : Type := String × Nat

/-- Split a character list on a delimiter; consecutive delimiters yield empty
tokens. Modelled from the spec: the Utils split helper used by QClient::feed
on the MOVED error text is not under src, only its caller is; the spec
describes the text as space-separated tokens. -/
def splitChars (delim : Char) : List Char → List (List Char)
  | [] => [[]]
  | c :: rest =>
    if c = delim then
      [] :: splitChars delim rest
    else
      match splitChars delim rest with
      | [] => [[c]]
      | grp :: groups => (c :: grp) :: groups

/-- Split a string on single spaces, as split(text, " ") in QClient::feed. -/
def splitOnSpace (s : String) : List String :=
  (splitChars ' ' s.data).map String.mk

/-- Whether the first string is an initial segment of the second, character
by character, as the strncmp check against MOVED in QClient::feed. -/
def charsLead : List Char → List Char → Bool
  | [], _ => true
  | _ :: _, [] => false
  | p :: ps, c :: cs => if p = c then charsLead ps cs else false

/-- strncmp(str, pat, strlen(pat)) == 0, on whole strings. -/
def strLeads (pat s : String) : Bool :=
  charsLead pat.data s.data

/-- Accumulate decimal digits into a number; none on a non-digit. -/
def digitsAcc : List Char → Nat → Option Nat
  | [], acc => some acc
  | c :: cs, acc =>
    if c.isDigit then digitsAcc cs (10 * acc + (c.toNat - 48)) else none

/-- Modelled from the spec: parseServer from the Utils helpers is not under
src, only its caller QClient::feed is; the spec says the third MOVED token
is parsed as host colon port. Accepts exactly host:port with a nonempty
numeric port. -/
def parseServer (s : String) : Option Endpoint :=
  match splitChars ':' s.data with
  | [hostChars, portChars] =>
    match portChars with
    | [] => none
    | _ => (digitsAcc portChars 0).map (fun p => (String.mk hostChars, p))
  | _ => none

/-- The MOVED-redirect test of QClient::feed: transparent redirects enabled,
reply is a REDIS_REPLY_ERROR whose text begins with MOVED and a space, the
text splits into exactly three space-separated tokens, and the third parses
as an endpoint. Returns the parsed endpoint when all of these hold; QClient
falls through to satisfying the stager otherwise. -/
def movedTarget (transparentRedirects : Bool) (r : RReply) : Option Endpoint :=
  if transparentRedirects then
    match r with
    | RReply.error msg =>
      if strLeads "MOVED " msg then
        match splitOnSpace msg with
        | [_, _, third] => parseServer third
        | _ => none
      else none
    | _ => none
  else none

/-- A staged request as seen by the reply path: either the handshake request
staged by QClient::connect, or a user request identified by a number. -/
inductive ReqTag where
  | handshakeReq
  | userReq (id : Nat)
deriving DecidableEq

/-- The client state consulted by QClient::feed for a single reply:
the handshakePending flag, the transparentRedirects setting, the FIFO queue
of staged requests awaiting replies, and the stored redirect endpoint. -/
structure ClientS where
  handshakePending : Bool
  transparentRedirects : Bool
  queue : List ReqTag
  redirectedEndpoint : Option Endpoint
deriving DecidableEq

/-- Outcome of processing one reply in QClient::feed: dropConn models
returning false with no satisfy (connection torn down), redirect models
storing the endpoint and returning false, satisfied models the call
writerThread.satisfy(rr), which resolves the request at the head of the
FIFO queue. The FIFO pop itself is modelled from the spec, since the
RequestStager sources are not under src; the spec guarantees FIFO
completion. -/
inductive FeedResult where
  | dropConn
  | redirect (e : Endpoint)
  | satisfied (r : Option ReqTag)
deriving DecidableEq

/-- The per-reply body of QClient::feed: a pending handshake validates the
reply first (an invalid reply drops the connection, a valid one clears the
pending flag and continues with the same reply); then the MOVED-redirect
test either stores the endpoint and drops the connection, or the reply
satisfies the stager. -/
def feedOne (validate : RReply → Bool) (r : RReply) (s : ClientS) :
    FeedResult × ClientS :=
  if s.handshakePending = true ∧ validate r = false then
    (FeedResult.dropConn, s)
  else
    let s1 := { s with handshakePending := false }
    match movedTarget s.transparentRedirects r with
    | some e => (FeedResult.redirect e, { s1 with redirectedEndpoint := some e })
    | none => (FeedResult.satisfied s1.queue.head?, { s1 with queue := s1.queue.tail })

/-- The effect of QClient::connect on the stager and the handshake flag:
cleanup clears every pending request (so the queue is empty), then, when a
handshake is configured, the handshake request is staged and
handshakePending is set; without a handshake the flag stays false. -/
def connectStager (hasHandshake : Bool) (s : ClientS) : ClientS :=
  { s with queue := if hasHandshake then [ReqTag.handshakeReq] else [],
           handshakePending := hasHandshake }

/-- User requests staged after connect append to the tail of the queue. -/
def stageAll (ids : List Nat) (s : ClientS) : ClientS :=
  { s with queue := s.queue ++ ids.map ReqTag.userReq }

/-- Modelled from the spec: the writer thread sources are not under src;
the spec states the writer drains staged requests to the wire in FIFO
order, so the wire order of the staged requests is the queue order. -/
def writeOrder (s : ClientS) : List ReqTag :=
  s.queue

/-- The primitive effects performed by the QClient connection-management
routines, in source order. -/
inductive CAction where
  | deactivateWriter
  | dropStream
  | freeReader
  | clearPending
  | selectEndpoint
  | openStream
  | stageHandshake
  | setShutdown
  | notifyShutdownFD
  | joinEventLoop
  | deleteWriter
  | backoffSleep
deriving DecidableEq

/-- QClient::cleanup: deactivate the writer, drop the network stream, free
the RESP reader, then call writerThread.clearPending(). -/
def cleanupActions : List CAction :=
  [CAction.deactivateWriter, CAction.dropStream, CAction.freeReader,
   CAction.clearPending]

/-- QClient::connect: cleanup first, then endpoint selection (member pick,
redirect processing, intercept lookup) and stream opening, then handshake
staging when a handshake is configured. -/
def connectActions (hasHandshake : Bool) : List CAction :=
  cleanupActions ++ [CAction.selectEndpoint, CAction.openStream] ++
    (if hasHandshake then [CAction.stageHandshake] else [])

/-- One reconnection iteration of QClient::eventLoop after the connection
dies without shutdown: sleep for the backoff, then call connect. -/
def eventLoopReconnectActions (hasHandshake : Bool) : List CAction :=
  CAction.backoffSleep :: connectActions hasHandshake

/-- The QClient destructor: set the shutdown flag, notify the shutdown
event fd, join the event loop thread, run cleanup, delete the writer. -/
def destructorActions : List CAction :=
  [CAction.setShutdown, CAction.notifyShutdownFD, CAction.joinEventLoop] ++
    cleanupActions ++ [CAction.deleteWriter]

/-- Modelled from the spec: the RequestStager sources are not under src,
only the clearPending declaration in WriterThread.hh is; the spec states
that clear pending satisfies every still-pending request with a nil reply.
Requests are identified by numbers; the result pairs every pending request
with the nil reply it receives. -/
def clearPendingModel (pending : List Nat) : List (Nat × Option RReply) :=
  pending.map (fun r => (r, none))

/-- The connection-selection state of QClient: the round-robin index, the
endpoint being connected to, the endpoint stored by a MOVED redirect, and
the redirectionActive flag. -/
structure ConnState where
  nextMember : Nat
  targetEndpoint : Endpoint
  redirectedEndpoint : Option Endpoint
  redirectionActive : Bool
deriving DecidableEq

/-- The process-wide intercept table, a map from endpoint to endpoint. -/
abbrev InterceptTable : Type := List (Endpoint × Endpoint)

/-- std::map::find on the intercept table. -/
def epLookup (table : InterceptTable) (e : Endpoint) : Option Endpoint :=
  match table with
  | [] => none
  | (k, v) :: rest => if k = e then some v else epLookup rest e

/-- The substitution an intercept entry performs on an endpoint. -/
def interceptApply (table : InterceptTable) (e : Endpoint) : Endpoint :=
  match epLookup table e with
  | some e2 => e2
  | none => e

/-- QClient::processRedirection: a stored redirect endpoint overrides the
target and arms redirectionActive; with none stored, an armed flag is
cleared (redirecting back to the original hosts); the stored redirect is
cleared in every case. -/
def processRedirection (s : ConnState) : ConnState :=
  match s.redirectedEndpoint with
  | some e =>
    { s with targetEndpoint := e, redirectionActive := true,
             redirectedEndpoint := none }
  | none =>
    if s.redirectionActive then
      { s with redirectionActive := false, redirectedEndpoint := none }
    else
      { s with redirectedEndpoint := none }

/-- QClient::discoverIntercept: replace the target endpoint when the
intercept table has an entry for it. -/
def discoverIntercept (table : InterceptTable) (s : ConnState) : ConnState :=
  match epLookup table s.targetEndpoint with
  | some e2 => { s with targetEndpoint := e2 }
  | none => s

/-- The endpoint-selection portion of QClient::connect: pick
members[nextMember] and advance nextMember modulo the member count, then
processRedirection, then discoverIntercept. -/
def connectSelect (members : List Endpoint) (table : InterceptTable)
    (s : ConnState) : ConnState :=
  let s1 := { s with targetEndpoint := members.getD s.nextMember ("", 0),
                     nextMember := (s.nextMember + 1) % members.length }
  discoverIntercept table (processRedirection s1)

/-- Modelled from the spec: MultiBuilder sources are not under src, only
their user SharedHash::set is; the spec states the builder emits the
accumulated argv vectors bracketed by MULTI and EXEC. -/
def multiGetDeque (cmds : List (List String)) : List (List String) :=
  [["MULTI"]] ++ cmds ++ [["EXEC"]]

/-- SharedHash::set on a batch: one VHDEL per pair with empty value, one
VHSET per other pair, accumulated in iteration order and emitted as a
single MULTI bundle. The result is the command sequence executed. -/
def setBatchCommands (batch : List (String × String)) : List (List String) :=
  multiGetDeque
    (batch.foldl
      (fun acc kv =>
        acc ++ [if kv.2 = "" then ["VHDEL", kv.1] else ["VHSET", kv.1, kv.2]])
      [])

/-- SharedHash::set on a single field: a singleton batch. -/
def setFieldCommands (field value : String) : List (List String) :=
  setBatchCommands [(field, value)]

/-- SharedHash::del: a singleton batch binding the field to the empty
string, passed to set. -/
def delFieldCommands (field : String) : List (List String) :=
  setBatchCommands [(field, "")]

-- Basic map lemmas shared by several claims.

theorem Smap.lookup_erase (f key : String) (m : Smap) :
    Smap.lookup f (Smap.erase key m) = if key = f then none else Smap.lookup f m := by
  induction m with
  | nil =>
    cases h : decide (key = f) <;> simp_all [Smap.erase, Smap.lookup]
  | cons kv rest ih =>
    obtain ⟨k, v⟩ := kv
    by_cases hk : k = key
    · subst hk
      by_cases hf : k = f
      · subst hf
        simp [Smap.erase, Smap.lookup, ih]
      · simp [Smap.erase, Smap.lookup, hf, ih]
    · by_cases hf : k = f
      · subst hf
        have hkf : ¬ key = k := fun h => hk h.symm
        simp [Smap.erase, Smap.lookup, hk, hkf, ih]
      · simp [Smap.erase, Smap.lookup, hk, hf, ih]

theorem Smap.lookup_insert (f key value : String) (m : Smap) :
    Smap.lookup f (Smap.insert key value m) =
      if key = f then some value else Smap.lookup f m := by
  induction m with
  | nil =>
    by_cases hf : key = f <;> simp [Smap.insert, Smap.lookup, hf]
  | cons kv rest ih =>
    obtain ⟨k, v⟩ := kv
    by_cases hk : k = key
    · subst hk
      by_cases hf : k = f <;> simp [Smap.insert, Smap.lookup, hf]
    · by_cases hf : k = f
      · subst hf
        have hkf : ¬ key = k := fun h => hk h.symm
        simp [Smap.insert, Smap.lookup, hk, hkf, ih]
      · simp [Smap.insert, Smap.lookup, hk, hf, ih]

theorem feedSingleKeyValue_lookup (key value f : String) (c : Smap) :
    Smap.lookup f (feedSingleKeyValue key value c) =
      if key = f then (if value = "" then none else some value)
      else Smap.lookup f c := by
  by_cases hv : value = ""
  · simp [feedSingleKeyValue, hv, Smap.lookup_erase]
  · simp [feedSingleKeyValue, hv, Smap.lookup_insert]

theorem feedRevision_characterize (s : HState) (rev : Nat)
    (updates : List (String × String))
    (hrev : rev < U64SIZE) (hver : s.currentVersion < U64SIZE) :
    feedRevision rev updates s =
      if rev = s.currentVersion + 1 ∧ s.currentVersion + 2 < U64SIZE then
        (true, { currentVersion := rev, contents := applyUpdates updates s.contents })
      else (false, s) := by
  unfold feedRevision
  unfold U64SIZE at hrev hver ⊢
  split_ifs <;> first
    | rfl
    | (exfalso; omega)

/-- C1, corrected. The claim holds except at the top of the uint64_t range:
because the gap check computes currentVersion + 2 on uint64_t values, for
currentVersion = 2^64 - 2 the sum wraps to 0 and the successor revision
2^64 - 1 is rejected (and for currentVersion = 2^64 - 1 every feed is
rejected by the staleness check). In all non-wrapping states the claim is
exact: rev = v + 1 applies the updates in order, sets the version, and
returns true; rev less than or equal to v, or at least v + 2, returns false
and leaves contents and version unchanged. -/
theorem c1_feedRevision_amended (s : HState) (rev : Nat)
    (updates : List (String × String))
    (hrev : rev < U64SIZE) (hver : s.currentVersion < U64SIZE) :
    feedRevision rev updates s =
      if rev = s.currentVersion + 1 ∧ s.currentVersion + 2 < U64SIZE then
        (true, { currentVersion := rev, contents := applyUpdates updates s.contents })
      else (false, s) :=
  feedRevision_characterize s rev updates hrev hver

/-- C1 witness: a concrete accepted feed, version 7 to 8. -/
theorem c1_feedRevision_amended_witness :
    feedRevision 8 [("x", "1")] { currentVersion := 7, contents := [] } =
      if 8 = 7 + 1 ∧ 7 + 2 < U64SIZE then
        (true, { currentVersion := 8, contents := applyUpdates [("x", "1")] [] })
      else (false, { currentVersion := 7, contents := [] }) :=
  c1_feedRevision_amended { currentVersion := 7, contents := [] } 8 [("x", "1")]
    (by decide) (by decide)

/-- C1 counterexample: with current version 2^64 - 2, feeding the successor
revision 2^64 - 1 is rejected with no state change, although the claim
requires it to be applied and to return true. -/
theorem c1_feedRevision_counterexample :
    (U64SIZE - 1) = (U64SIZE - 2) + 1
    ∧ (feedRevision (U64SIZE - 1) [("a", "b")]
        { currentVersion := U64SIZE - 2, contents := [] }).1 = false
    ∧ (feedRevision (U64SIZE - 1) [("a", "b")]
        { currentVersion := U64SIZE - 2, contents := [] }).2
        = { currentVersion := U64SIZE - 2, contents := [] } := by
  refine ⟨by decide, by decide, by decide⟩

/-- C2, corrected. The version never decreases under feedRevision, but
SharedHash::resilver assigns the version unconditionally, so a resilver
application carrying a smaller revision decreases it to exactly that
revision. -/
theorem c2_version_monotonicity_amended :
    (∀ (s : HState) (rev : Nat) (u : List (String × String)),
        s.currentVersion ≤ ((feedRevision rev u s).2).currentVersion)
    ∧ ∀ (s : HState) (rev : Nat) (m : Smap),
        (resilverApply rev m s).currentVersion = rev := by
  constructor
  · intro s rev u
    unfold feedRevision
    split_ifs with h1 h2
    · exact Nat.le_refl _
    · exact Nat.le_refl _
    · show s.currentVersion ≤ rev
      omega
  · intro s rev m
    rfl

/-- C2 counterexample: feeding revision 1 from version 0 raises the version
to 1, after which applying a resilver whose reply carries revision 0 lowers
the observed version back to 0. -/
theorem c2_version_monotonicity_counterexample :
    (hashRun { currentVersion := 0, contents := [] }
        [HashOp.feedOp 1 [("a", "1")]]).currentVersion = 1
    ∧ (hashRun { currentVersion := 0, contents := [] }
        [HashOp.feedOp 1 [("a", "1")], HashOp.resilverOp 0 []]).currentVersion = 0 := by
  refine ⟨by decide, by decide⟩

/-- C7, confirmed. An accepted feed sets the version to the fed revision and
applies the update pairs in order, where each single application removes the
field when the value is the empty string and otherwise binds the field to
the value. -/
theorem c7_accepted_feed_semantics (s : HState) (rev : Nat)
    (updates : List (String × String))
    (hacc : (feedRevision rev updates s).1 = true) :
    (feedRevision rev updates s).2.currentVersion = rev
    ∧ (feedRevision rev updates s).2.contents = applyUpdates updates s.contents
    ∧ ∀ (c : Smap) (k v f : String),
        Smap.lookup f (feedSingleKeyValue k v c) =
          if k = f then (if v = "" then none else some v) else Smap.lookup f c := by
  by_cases h1 : rev ≤ s.currentVersion
  · exfalso
    unfold feedRevision at hacc
    rw [if_pos h1] at hacc
    exact Bool.false_ne_true hacc
  by_cases h2 : (s.currentVersion + 2) % U64SIZE ≤ rev
  · exfalso
    unfold feedRevision at hacc
    rw [if_neg h1, if_pos h2] at hacc
    exact Bool.false_ne_true hacc
  have heq : feedRevision rev updates s =
      (true, { currentVersion := rev, contents := applyUpdates updates s.contents }) := by
    unfold feedRevision
    rw [if_neg h1, if_neg h2]
  refine ⟨by rw [heq], by rw [heq], ?_⟩
  intro c k v f
  exact feedSingleKeyValue_lookup k v f c

/-- C7 witness: the deletion scenario of the spec, version 8 with field a
bound, feeding revision 9 with the pair binding a to the empty string. -/
theorem c7_accepted_feed_semantics_witness :
    (feedRevision 9 [("a", "")] { currentVersion := 8, contents := [("a", "2")] }).2.currentVersion = 9
    ∧ (feedRevision 9 [("a", "")] { currentVersion := 8, contents := [("a", "2")] }).2.contents
        = applyUpdates [("a", "")] [("a", "2")]
    ∧ ∀ (c : Smap) (k v f : String),
        Smap.lookup f (feedSingleKeyValue k v c) =
          if k = f then (if v = "" then none else some v) else Smap.lookup f c :=
  c7_accepted_feed_semantics { currentVersion := 8, contents := [("a", "2")] } 9
    [("a", "")] (by decide)

theorem parsePairs_characterize : ∀ (elems : List RReply) (acc : Smap),
    parsePairs elems acc =
      if elems.all isBString = true ∧ elems.length % 2 = 0 then
        some ((toPairs elems).foldl (fun m kv => Smap.insert kv.1 kv.2 m) acc)
      else none
  | [], acc => by simp [parsePairs, toPairs]
  | RReply.bstring k :: RReply.bstring v :: rest, acc => by
      have ih := parsePairs_characterize rest (Smap.insert k v acc)
      show parsePairs rest (Smap.insert k v acc) = _
      rw [ih]
      have hmod : (rest.length + 1 + 1) % 2 = rest.length % 2 := by omega
      simp only [List.all_cons, isBString, Bool.true_and, List.length_cons, hmod, toPairs,
        List.foldl_cons]
  | RReply.integer i :: rest, acc => by
      simp [parsePairs, List.all_cons, isBString]
  | RReply.status s :: rest, acc => by
      simp [parsePairs, List.all_cons, isBString]
  | RReply.error s :: rest, acc => by
      simp [parsePairs, List.all_cons, isBString]
  | RReply.array l :: rest, acc => by
      simp [parsePairs, List.all_cons, isBString]
  | RReply.nilReply :: rest, acc => by
      simp [parsePairs, List.all_cons, isBString]
  | [RReply.bstring k], acc => by
      simp [parsePairs, List.all_cons, isBString]
  | RReply.bstring k :: RReply.integer i :: rest, acc => by
      simp [parsePairs, List.all_cons, isBString]
  | RReply.bstring k :: RReply.status s :: rest, acc => by
      simp [parsePairs, List.all_cons, isBString]
  | RReply.bstring k :: RReply.error s :: rest, acc => by
      simp [parsePairs, List.all_cons, isBString]
  | RReply.bstring k :: RReply.array l :: rest, acc => by
      simp [parsePairs, List.all_cons, isBString]
  | RReply.bstring k :: RReply.nilReply :: rest, acc => by
      simp [parsePairs, List.all_cons, isBString]

/-- C6, confirmed. SharedHash::handleResponse applies a resilver exactly for
replies that are a two-element array with an integer first element and an
array of an even number of strings as second element: the contents are
replaced wholesale by the decoded field-value map and the version is set to
the decoded revision. Every other reply shape, a null reply included, takes
the parseError path (warning flag) and leaves the state unchanged. -/
theorem c6_handleResponse_characterize (reply : Option RReply) (s : HState) :
    handleResponse reply s =
      if goodResilverReply reply = true then
        ({ currentVersion := claimRevision reply, contents := claimContents reply }, false)
      else (s, true) := by
  match reply with
  | none => rfl
  | some (RReply.integer i) => rfl
  | some (RReply.bstring x) => rfl
  | some (RReply.status x) => rfl
  | some (RReply.error x) => rfl
  | some RReply.nilReply => rfl
  | some (RReply.array []) => rfl
  | some (RReply.array [a]) => cases a <;> rfl
  | some (RReply.array (a :: b :: c :: rest)) => cases a <;> cases b <;> rfl
  | some (RReply.array [a, b]) =>
    cases a with
    | integer i =>
      cases b with
      | array elems =>
        have hp := parsePairs_characterize elems []
        by_cases hev : elems.length % 2 = 0
        · by_cases hall : elems.all isBString = true
          · rw [if_pos ⟨hall, hev⟩] at hp
            simp [handleResponse, hev, hp, goodResilverReply, hall, claimRevision,
              claimContents, resilverApply]
          · rw [if_neg (by simp [hall])] at hp
            simp [handleResponse, hev, hp, goodResilverReply, hall]
        · simp [handleResponse, hev, goodResilverReply]
      | integer j => rfl
      | bstring x => rfl
      | status x => rfl
      | error x => rfl
      | nilReply => rfl
    | bstring x => cases b <;> rfl
    | status x => cases b <;> rfl
    | error x => cases b <;> rfl
    | array l => cases b <;> rfl
    | nilReply => cases b <;> rfl

theorem checkFuture_outstanding (m : ResilverM) :
    (checkFuture m).outstanding = m.outstanding := by
  unfold checkFuture
  cases hs : m.slot with
  | none => simp
  | some id =>
    cases hl : lookupArr id m.arrived with
    | none => simp [hl]
    | some rep => simp [hl]

theorem resilverStep_outstanding_le (m : ResilverM) (op : ResilverOp) :
    (resilverStep m op).outstanding.length ≤
      m.outstanding.length + (if isTrigger op then 1 else 0) := by
  cases op with
  | construct => simp [resilverStep, triggerResilvering, isTrigger]
  | notifyEstablished =>
    simp [resilverStep, checkFuture_outstanding, triggerResilvering, isTrigger]
  | readOp => simp [resilverStep, checkFuture_outstanding, isTrigger]
  | incoming => simp [resilverStep, checkFuture_outstanding, isTrigger]
  | arrive id rep =>
    have h := List.length_filter_le (fun x => x != id) m.outstanding
    have hz : (if isTrigger (ResilverOp.arrive id rep) then 1 else 0) = 0 := rfl
    rw [hz]
    simp only [resilverStep, arriveStep]
    split_ifs with hmem
    · show (List.filter (fun x => x != id) m.outstanding).length ≤ m.outstanding.length + 0
      omega
    · omega

theorem resilverFold_outstanding_le : ∀ (ops : List ResilverOp) (m : ResilverM),
    (ops.foldl resilverStep m).outstanding.length ≤
      m.outstanding.length + triggerCount ops
  | [], m => by simp [triggerCount]
  | op :: ops, m => by
    have ih := resilverFold_outstanding_le ops (resilverStep m op)
    have hstep := resilverStep_outstanding_le m op
    have hcount : triggerCount (op :: ops) =
        (if isTrigger op then 1 else 0) + triggerCount ops := by
      simp only [triggerCount, List.filter_cons]
      split_ifs
      · simp only [List.length_cons]
        omega
      · omega
    simp only [List.foldl_cons]
    split_ifs at hstep hcount <;> omega

/-- C8, corrected. The hash awaits at most the most recently issued VHGETALL
(each call to triggerResilvering overwrites the futureReply slot with the
fresh request), reads and incoming messages issue no request, and the number
of resilver requests in flight is bounded by the number of trigger events
(construction plus connection-established notifications); but it is not
bounded by one, because triggerResilvering issues a new request without
waiting for, or cancelling, the previous one. -/
theorem c8_resilver_in_flight_amended :
    (∀ ops : List ResilverOp,
        (resilverRun ops).outstanding.length ≤ triggerCount ops)
    ∧ (∀ m : ResilverM, (triggerResilvering m).slot = some m.nextId
        ∧ (triggerResilvering m).outstanding = m.outstanding ++ [m.nextId])
    ∧ ∀ m : ResilverM, (checkFuture m).outstanding = m.outstanding := by
  refine ⟨?_, fun m => ⟨rfl, rfl⟩, checkFuture_outstanding⟩
  intro ops
  have h := resilverFold_outstanding_le ops initResilverM
  simpa [resilverRun, initResilverM] using h

/-- C8 counterexample: construction issues request 0; a connection-established
notification before any reply arrives issues request 1; both VHGETALL
requests are then in flight at once, while the hash awaits only request 1. -/
theorem c8_resilver_in_flight_counterexample :
    (resilverRun [ResilverOp.construct, ResilverOp.notifyEstablished]).outstanding = [0, 1]
    ∧ (resilverRun [ResilverOp.construct, ResilverOp.notifyEstablished]).slot = some 1
    ∧ 2 ≤ (resilverRun [ResilverOp.construct, ResilverOp.notifyEstablished]).outstanding.length := by
  refine ⟨by decide, by decide, by decide⟩

/-- C3, corrected. When transparent redirects are enabled and the error text
starts with MOVED followed by a space, the reply is withheld from user
futures only when the text also splits into exactly three space-separated
tokens whose third token parses as host colon port: then the endpoint is
stored as the pending redirect and the connection is dropped without
satisfying the stager. A MOVED-prefixed error without that exact shape
falls through and is delivered to the waiting request like any other
error reply. This theorem is the well-formed half of the amended claim. -/
theorem c3_moved_redirect_amended (validate : RReply → Bool)
    (msg t1 t2 t3 : String) (s : ClientS) (e : Endpoint)
    (hp : s.handshakePending = false)
    (ht : s.transparentRedirects = true)
    (hm : strLeads "MOVED " msg = true)
    (hs : splitOnSpace msg = [t1, t2, t3])
    (hpar : parseServer t3 = some e) :
    (feedOne validate (RReply.error msg) s).1 = FeedResult.redirect e
    ∧ (feedOne validate (RReply.error msg) s).2.redirectedEndpoint = some e
    ∧ (feedOne validate (RReply.error msg) s).2.queue = s.queue := by
  have hmv : movedTarget s.transparentRedirects (RReply.error msg) = some e := by
    rw [ht]
    unfold movedTarget
    simp [hm, hs, hpar]
  unfold feedOne
  rw [hp]
  simp [hmv]

/-- C3 witness: a well-formed MOVED error is turned into a stored redirect
and the staged user request is left untouched. -/
theorem c3_moved_redirect_amended_witness :
    (feedOne (fun _ => true) (RReply.error "MOVED 123 host9:7777")
        { handshakePending := false, transparentRedirects := true,
          queue := [ReqTag.userReq 4], redirectedEndpoint := none }).1
        = FeedResult.redirect ("host9", 7777)
    ∧ (feedOne (fun _ => true) (RReply.error "MOVED 123 host9:7777")
        { handshakePending := false, transparentRedirects := true,
          queue := [ReqTag.userReq 4], redirectedEndpoint := none }).2.redirectedEndpoint
        = some ("host9", 7777)
    ∧ (feedOne (fun _ => true) (RReply.error "MOVED 123 host9:7777")
        { handshakePending := false, transparentRedirects := true,
          queue := [ReqTag.userReq 4], redirectedEndpoint := none }).2.queue
        = [ReqTag.userReq 4] :=
  c3_moved_redirect_amended (fun _ => true) "MOVED 123 host9:7777" "MOVED" "123"
    "host9:7777"
    { handshakePending := false, transparentRedirects := true,
      queue := [ReqTag.userReq 4], redirectedEndpoint := none }
    ("host9", 7777) (by decide) (by decide) (by decide) (by decide) (by decide)

/-- C3 counterexample: with transparent redirects enabled, the error reply
whose text is MOVED followed by a single token still starts with MOVED and a
space, yet QClient::feed falls through the redirect branch (the split does
not give three tokens) and satisfies the user request at the head of the
queue with this reply, contradicting the claim that such a reply is never
delivered to a user future. -/
theorem c3_moved_redirect_counterexample :
    strLeads "MOVED " "MOVED 5" = true
    ∧ (feedOne (fun _ => true) (RReply.error "MOVED 5")
        { handshakePending := false, transparentRedirects := true,
          queue := [ReqTag.userReq 0], redirectedEndpoint := none }).1
        = FeedResult.satisfied (some (ReqTag.userReq 0)) := by
  refine ⟨by decide, by decide⟩

/-- C5, confirmed. After QClient::connect with a handshake configured, the
handshake request is the sole queue entry, so it precedes every user request
staged afterwards in the FIFO write order; the first reply is validated
while handshakePending is set: an invalid reply drops the connection
without satisfying anything, and in no case does that reply resolve a
user-staged request, because the queue head it can satisfy is the handshake
entry staged by connect itself. -/
theorem c5_handshake_gate (validate : RReply → Bool) (r : RReply)
    (ids : List Nat) (s : ClientS) (i : Nat) :
    (stageAll ids (connectStager true s)).queue
        = ReqTag.handshakeReq :: ids.map ReqTag.userReq
    ∧ writeOrder (stageAll ids (connectStager true s))
        = ReqTag.handshakeReq :: ids.map ReqTag.userReq
    ∧ (feedOne validate r (stageAll ids (connectStager true s))).1
        ≠ FeedResult.satisfied (some (ReqTag.userReq i))
    ∧ (validate r = false →
        (feedOne validate r (stageAll ids (connectStager true s))).1
          = FeedResult.dropConn) := by
  have hq : (stageAll ids (connectStager true s)).queue
      = ReqTag.handshakeReq :: ids.map ReqTag.userReq := by
    simp [stageAll, connectStager]
  have hpend : (stageAll ids (connectStager true s)).handshakePending = true := by
    simp [stageAll, connectStager]
  refine ⟨hq, hq, ?_, ?_⟩
  · cases hv : validate r with
    | false =>
      unfold feedOne
      rw [hpend, hv]
      simp
    | true =>
      unfold feedOne
      rw [hpend, hv]
      simp only [Bool.true_eq_false, and_false, if_false]
      cases hmv : movedTarget (stageAll ids (connectStager true s)).transparentRedirects r with
      | some e => simp [hmv]
      | none => simp [hmv, hq]
  · intro hv
    unfold feedOne
    rw [hpend, hv]
    simp

/-- C5 witness: with a validator that rejects everything and one user request
staged after connect, the handshake request heads the write order and the
reply drops the connection instead of resolving the user request. -/
theorem c5_handshake_gate_witness :
    (stageAll [3] (connectStager true
        { handshakePending := false, transparentRedirects := false,
          queue := [], redirectedEndpoint := none })).queue
        = ReqTag.handshakeReq :: [3].map ReqTag.userReq
    ∧ writeOrder (stageAll [3] (connectStager true
        { handshakePending := false, transparentRedirects := false,
          queue := [], redirectedEndpoint := none }))
        = ReqTag.handshakeReq :: [3].map ReqTag.userReq
    ∧ (feedOne (fun _ => false) (RReply.status "ERR") (stageAll [3] (connectStager true
        { handshakePending := false, transparentRedirects := false,
          queue := [], redirectedEndpoint := none }))).1
        ≠ FeedResult.satisfied (some (ReqTag.userReq 3))
    ∧ ((fun _ => false : RReply → Bool) (RReply.status "ERR") = false →
        (feedOne (fun _ => false) (RReply.status "ERR") (stageAll [3] (connectStager true
          { handshakePending := false, transparentRedirects := false,
            queue := [], redirectedEndpoint := none }))).1
          = FeedResult.dropConn) :=
  c5_handshake_gate (fun _ => false) (RReply.status "ERR") [3]
    { handshakePending := false, transparentRedirects := false,
      queue := [], redirectedEndpoint := none } 3

/-- C4, corrected. clearPending resolves every still-pending request with a
nil reply and nothing else, and it is invoked from QClient::cleanup, which
runs on permanent shutdown in the destructor but also at the start of every
QClient::connect, including the reconnection path of the event loop. -/
theorem c4_clear_pending_amended (q : List Nat) (r : Nat) (hr : r ∈ q) :
    (r, (none : Option RReply)) ∈ clearPendingModel q
    ∧ (∀ (p : Nat) (rep : Option RReply),
        (p, rep) ∈ clearPendingModel q → rep = none ∧ p ∈ q)
    ∧ CAction.clearPending ∈ destructorActions
    ∧ ∀ b : Bool, CAction.clearPending ∈ connectActions b := by
  refine ⟨?_, ?_, by decide, by intro b; cases b <;> decide⟩
  · exact List.mem_map_of_mem (fun x => (x, none)) hr
  · intro p rep hmem
    simp only [clearPendingModel, List.mem_map] at hmem
    obtain ⟨x, hx, hxe⟩ := hmem
    obtain ⟨h1, h2⟩ := Prod.mk.injEq .. ▸ hxe
    constructor
    · exact h2.symm ▸ rfl
    · exact h1 ▸ hx

/-- C4 witness: a queue of two pending requests, both resolved with nil. -/
theorem c4_clear_pending_amended_witness :
    ((7 : Nat), (none : Option RReply)) ∈ clearPendingModel [7, 8]
    ∧ (∀ (p : Nat) (rep : Option RReply),
        (p, rep) ∈ clearPendingModel [7, 8] → rep = none ∧ p ∈ [7, 8])
    ∧ CAction.clearPending ∈ destructorActions
    ∧ ∀ b : Bool, CAction.clearPending ∈ connectActions b :=
  c4_clear_pending_amended [7, 8] 7 (by decide)

/-- C4 counterexample: clearPending is part of the action trace of a
reconnection iteration of the event loop (with or without a handshake),
contradicting the claim that it is invoked only on permanent shutdown and
never as part of a reconnect cycle. -/
theorem c4_clear_pending_counterexample :
    CAction.clearPending ∈ eventLoopReconnectActions false
    ∧ CAction.clearPending ∈ eventLoopReconnectActions true := by
  refine ⟨by decide, by decide⟩

/-- C9, confirmed. On every connection attempt the target starts as
members[nextMember] with nextMember advancing by one modulo the member
count (and staying in range); a stored redirect endpoint overrides that
selection, arms redirectionActive, and is cleared so that it applies to
exactly one attempt, after which selection resumes from the configured
members; finally an intercept-table entry for the resulting endpoint
substitutes the mapped endpoint. -/
theorem c9_connect_endpoint_selection (members : List Endpoint)
    (table : InterceptTable) (s : ConnState)
    (h : s.nextMember < members.length) :
    (connectSelect members table s).nextMember = (s.nextMember + 1) % members.length
    ∧ (connectSelect members table s).nextMember < members.length
    ∧ (connectSelect members table s).redirectedEndpoint = none
    ∧ (connectSelect members table s).redirectionActive = s.redirectedEndpoint.isSome
    ∧ (connectSelect members table s).targetEndpoint
        = interceptApply table
            (match s.redirectedEndpoint with
             | some e => e
             | none => members.getD s.nextMember ("", 0)) := by
  have hlen : 0 < members.length := Nat.lt_of_le_of_lt (Nat.zero_le _) h
  have hmod : (s.nextMember + 1) % members.length < members.length :=
    Nat.mod_lt _ hlen
  cases hre : s.redirectedEndpoint with
  | none =>
    cases hlk : epLookup table (members.getD s.nextMember ("", 0)) with
    | none =>
      simp only [List.getD_eq_getElem?_getD] at hlk
      by_cases hra : s.redirectionActive <;>
        simp [connectSelect, processRedirection, discoverIntercept, interceptApply,
          hre, hra, hlk, hmod]
    | some e2 =>
      simp only [List.getD_eq_getElem?_getD] at hlk
      by_cases hra : s.redirectionActive <;>
        simp [connectSelect, processRedirection, discoverIntercept, interceptApply,
          hre, hra, hlk, hmod]
  | some e =>
    cases hlk : epLookup table e with
    | none =>
      simp [connectSelect, processRedirection, discoverIntercept, interceptApply,
        hre, hlk, hmod]
    | some e2 =>
      simp [connectSelect, processRedirection, discoverIntercept, interceptApply,
        hre, hlk, hmod]

/-- C9 witness: two members, round-robin index 1, no pending redirect, and an
intercept entry for the selected member. -/
theorem c9_connect_endpoint_selection_witness :
    (connectSelect [("h1", 1), ("h2", 2)] [(("h2", 2), ("h9", 9))]
        { nextMember := 1, targetEndpoint := ("h0", 0),
          redirectedEndpoint := none, redirectionActive := false }).nextMember
      = (1 + 1) % [(("h1", 1) : Endpoint), ("h2", 2)].length
    ∧ (connectSelect [("h1", 1), ("h2", 2)] [(("h2", 2), ("h9", 9))]
        { nextMember := 1, targetEndpoint := ("h0", 0),
          redirectedEndpoint := none, redirectionActive := false }).nextMember
      < [(("h1", 1) : Endpoint), ("h2", 2)].length
    ∧ (connectSelect [("h1", 1), ("h2", 2)] [(("h2", 2), ("h9", 9))]
        { nextMember := 1, targetEndpoint := ("h0", 0),
          redirectedEndpoint := none, redirectionActive := false }).redirectedEndpoint
      = none
    ∧ (connectSelect [("h1", 1), ("h2", 2)] [(("h2", 2), ("h9", 9))]
        { nextMember := 1, targetEndpoint := ("h0", 0),
          redirectedEndpoint := none, redirectionActive := false }).redirectionActive
      = (none : Option Endpoint).isSome
    ∧ (connectSelect [("h1", 1), ("h2", 2)] [(("h2", 2), ("h9", 9))]
        { nextMember := 1, targetEndpoint := ("h0", 0),
          redirectedEndpoint := none, redirectionActive := false }).targetEndpoint
      = interceptApply [(("h2", 2), ("h9", 9))]
          (match (none : Option Endpoint) with
           | some e => e
           | none => [(("h1", 1) : Endpoint), ("h2", 2)].getD 1 ("", 0)) :=
  c9_connect_endpoint_selection [("h1", 1), ("h2", 2)] [(("h2", 2), ("h9", 9))]
    { nextMember := 1, targetEndpoint := ("h0", 0),
      redirectedEndpoint := none, redirectionActive := false } (by decide)

theorem foldl_snoc_map {A B : Type} (f : A → B) :
    ∀ (l : List A) (acc : List B),
      l.foldl (fun a x => a ++ [f x]) acc = acc ++ l.map f
  | [], acc => by simp
  | x :: l, acc => by
    simp only [List.foldl_cons, List.map_cons]
    rw [foldl_snoc_map f l (acc ++ [f x])]
    simp

/-- C10, confirmed. SharedHash::del of a field executes exactly the command
bundle of SharedHash::set of that field to the empty string, namely a MULTI
bundle containing a single VHDEL of the field; and in general set of a batch
emits one VHDEL per pair whose value is empty and one VHSET per other pair,
in batch order, inside one MULTI and EXEC bracket. -/
theorem c10_del_set_equivalence :
    (∀ field : String, delFieldCommands field = setFieldCommands field "")
    ∧ (∀ field : String,
        delFieldCommands field = [["MULTI"], ["VHDEL", field], ["EXEC"]])
    ∧ ∀ batch : List (String × String),
        setBatchCommands batch = multiGetDeque (batch.map
          (fun kv => if kv.2 = "" then ["VHDEL", kv.1] else ["VHSET", kv.1, kv.2])) := by
  refine ⟨fun field => rfl, fun field => rfl, fun batch => ?_⟩
  unfold setBatchCommands
  rw [foldl_snoc_map
    (fun kv => if kv.2 = "" then ["VHDEL", kv.1] else ["VHSET", kv.1, kv.2]) batch []]
  simp [multiGetDeque]
